import Mathlib

/-!
Verification of the occultation-event search pipeline
(`scripts/generate_occultation_events.py`).

The script is embedded shallowly:

* A Python value stored in a raw event dict is modelled by `Val`, recording
  exactly the observations the script makes of a value: its truthiness
  (`if v:`), its string form (`str(v)`), and the result of `float(v)`
  (`none` when `float` raises).
* A raw event (`ev`) is an association list from field names to values;
  `dictGet` is `ev.get(k)`.
* The network fetch and the astropy computations are external collaborators;
  they are passed in as functions (`fetch`, `Astro`), with `Option` results
  modelling raised exceptions.
* `main`'s pure core is `pipelineOutput`: the window/threshold search
  (`searchAux`), the future-only re-filter (`finalSelect`) and the final
  normalization.  `searchAuxT` is the same search instrumented with a log of
  fetch calls and threshold evaluations, used to state search-order claims;
  it is proved to agree with `searchAux`.
-/

/-- A Python value as observed by the script: truthiness (`if v:`),
`str(v)`, and `float(v)` (`none` when `float(v)` raises). -/
structure Val where
  truthy : Bool
  asStr : String
  toQ : Option ℚ
deriving DecidableEq

/-- A raw event from the upstream API: a dict from field names to values. -/
abbrev RawEvent := List (String × Val)

/-- `ev.get(k)`: first binding of key `k`, `none` when absent. -/
def dictGet (ev : RawEvent) (k : String) : Option Val :=
  match ev with
  | [] => none
  | (k2, v) :: rest => if k2 = k then some v else dictGet rest k

/-- The ordered candidate field names tried by `parse_dt_str`. -/
def dtKeys : List String :=
  ["date_time", "datetime", "datetime_utc", "time", "utc_time", "event_time",
   "epoch", "epoch_utc", "dateTime"]

/-- The key loop of `parse_dt_str`: first present-and-truthy value wins. -/
def firstTruthy (ev : RawEvent) : List String → Option String
  | [] => none
  | k :: ks =>
    match dictGet ev k with
    | some v => if v.truthy then some v.asStr else firstTruthy ev ks
    | none => firstTruthy ev ks

/-- `parse_dt_str(ev)`: extract a UTC datetime string (`str(v)` of the first
truthy value among the candidate keys), `none` when no key matches. -/
def parse_dt_str (ev : RawEvent) : Option String :=
  firstTruthy ev dtKeys

/-- One candidate coordinate pair of `parse_ra_dec`:
`if ra_k in ev and dec_k in ev: try: return float(...), float(...) except: pass`.
An absent key and a present-but-malformed value behave identically. -/
def tryPair (ev : RawEvent) (rk dk : String) : Option (ℚ × ℚ) :=
  match dictGet ev rk, dictGet ev dk with
  | some rv, some dv =>
    match rv.toQ, dv.toQ with
    | some r, some d => some (r, d)
    | _, _ => none
  | _, _ => none

/-- The generic fallback coordinate key pairs of `parse_ra_dec`. -/
def coordCandidates : List (String × String) :=
  [("ra_deg", "dec_deg"), ("ra", "dec"),
   ("RA_deg", "DEC_deg"), ("RA", "DEC"),
   ("alpha", "delta"), ("alpha_deg", "delta_deg"),
   ("star_ra", "star_dec"), ("raStar", "decStar")]

/-- The candidate loop of `parse_ra_dec` over the generic pairs. -/
def firstCoord (ev : RawEvent) : List (String × String) → Option (ℚ × ℚ)
  | [] => none
  | (rk, dk) :: rest =>
    match tryPair ev rk dk with
    | some p => some p
    | none => firstCoord ev rest

/-- `parse_ra_dec(ev)`: star coordinates first, then target coordinates,
then the generic candidate pairs; `(None, None)` when nothing matches. -/
def parse_ra_dec (ev : RawEvent) : Option ℚ × Option ℚ :=
  match tryPair ev "ra_star_deg" "dec_star_deg" with
  | some (r, d) => (some r, some d)
  | none =>
    match tryPair ev "ra_target_deg" "dec_target_deg" with
    | some (r, d) => (some r, some d)
    | none =>
      match firstCoord ev coordCandidates with
      | some (r, d) => (some r, some d)
      | none => (none, none)

/-- The literal `"Occultation"` used as final name fallback. -/
def occultationVal : Val := ⟨true, "Occultation", none⟩

/-- Python `a or b` where `a` is `ev.get(...)` (possibly `None`) and the
result must be a value: keeps `a` when present and truthy, else `b`. -/
def pyOr (a : Option Val) (b : Val) : Val :=
  match a with
  | some v => if v.truthy then v else b
  | none => b

/-- `ev.get("name") or ev.get("principal_designation") or ev.get("alias")
or "Occultation"`. -/
def nameVal (ev : RawEvent) : Val :=
  pyOr (dictGet ev "name")
    (pyOr (dictGet ev "principal_designation")
      (pyOr (dictGet ev "alias") occultationVal))

/-- Python `s or fallback` for an optional string: keeps `s` when present
and non-empty (truthy), else `fallback`. -/
def orStr (a : Option String) (b : String) : String :=
  match a with
  | some s => if s = "" then b else s
  | none => b

/-- The de-dup key of `main`: `(parse_dt_str(ev) or "na", name-chain)`. -/
def dedupKey (ev : RawEvent) : String × Val :=
  (orStr (parse_dt_str ev) "na", nameVal ev)

/-- The sort key of `sort_by_time`:
`parse_dt_str(ev) or "9999-12-31T00:00:00Z"`. -/
def sortKey (ev : RawEvent) : String :=
  orStr (parse_dt_str ev) "9999-12-31T00:00:00Z"

/-- Lexicographic (code-point) `≤` on character lists, the order Python uses
to compare strings; written structurally so it evaluates in the kernel. -/
def listLe : List Char → List Char → Bool
  | [], _ => true
  | _ :: _, [] => false
  | a :: as, b :: bs =>
    if a < b then true else if b < a then false else listLe as bs

/-- Python string `<=` (code-point lexicographic). -/
def strLe (a b : String) : Bool := listLe a.data b.data

/-- The sort relation of `sort_by_time`: compare events by `sortKey`. -/
def keyLe (a b : RawEvent) : Prop := strLe (sortKey a) (sortKey b) = true

instance : DecidableRel keyLe := fun _ _ => instDecidableEqBool _ _

/-- `sort_by_time(events)`: Python's stable `sorted(events, key=key)`,
modelled as a stable insertion sort by `sortKey`. -/
def sort_by_time (events : List RawEvent) : List RawEvent :=
  events.insertionSort keyLe

/-- One `dedup[(dt, nm)] = ev` step with Python dict semantics: an existing
key keeps its position and gets the new value; a new key is appended. -/
def dictInsert (d : List ((String × Val) × RawEvent)) (k : String × Val)
    (v : RawEvent) : List ((String × Val) × RawEvent) :=
  if d.any (fun p => decide (p.1 = k)) then
    d.map (fun p => if p.1 = k then (k, v) else p)
  else d ++ [(k, v)]

/-- The de-dup loop of `main` over the (sorted) visible list. -/
def dedupFold (d : List ((String × Val) × RawEvent)) :
    List RawEvent → List ((String × Val) × RawEvent)
  | [] => d
  | ev :: rest => dedupFold (dictInsert d (dedupKey ev) ev) rest

/-- `list(dedup.values())` after the de-dup loop. -/
def dedupStep (visible : List RawEvent) : List RawEvent :=
  (dedupFold [] visible).map Prod.snd

/-- The astronomy / time external capability: `Time(s)` parse, the
`to_datetime` conversion, and the target-and-sun altitude computation;
`none` models a raised exception. -/
structure Astro where
  timeParse : String → Option ℚ
  toDT : ℚ → Option ℚ
  altPair : ℚ → ℚ → ℚ → Option (ℚ × ℚ)

/-- The per-event body of `filter_visible`: timestamp present and truthy,
`Time` parse succeeds, not known-past, coordinates extractable, astronomy
succeeds, and the altitude/darkness cuts pass. -/
def visibleOne (A : Astro) (now minAlt sunMax : ℚ) (ev : RawEvent) : Bool :=
  match parse_dt_str ev with
  | none => false
  | some dts =>
    if dts = "" then false
    else
      match A.timeParse dts with
      | none => false
      | some t =>
        let pastKnown : Bool :=
          match A.toDT t with
          | some d => decide (d ≤ now)
          | none => false
        if pastKnown then false
        else
          match parse_ra_dec ev with
          | (some ra, some dec) =>
            match A.altPair ra dec t with
            | some (alt, sunAlt) =>
              decide (minAlt ≤ alt) && decide (sunAlt ≤ sunMax)
            | none => false
          | _ => false

/-- `filter_visible(events, min_alt_deg, sun_alt_max_deg)`. -/
def filter_visible (A : Astro) (now minAlt sunMax : ℚ)
    (events : List RawEvent) : List RawEvent :=
  events.filter (visibleOne A now minAlt sunMax)

/-- `is_future(ev)` from `main`: parseable timestamp strictly after `now`;
any failure yields `False`. -/
def is_future (A : Astro) (now : ℚ) (ev : RawEvent) : Bool :=
  match parse_dt_str ev with
  | none => false
  | some s =>
    if s = "" then false
    else
      match A.timeParse s with
      | none => false
      | some t =>
        match A.toDT t with
        | some d => decide (now < d)
        | none => false

/-- The stable output schema written by `normalize`. -/
structure NormalizedEvent where
  name : Val
  datetime_utc : Option String
  magnitude_drop : Option Val
  duration : Option Val
  ra_deg : Option ℚ
  dec_deg : Option ℚ
deriving DecidableEq

/-- `normalize(ev)`. -/
def normalizeEv (ev : RawEvent) : NormalizedEvent :=
  { name := nameVal ev
    datetime_utc := parse_dt_str ev
    magnitude_drop := dictGet ev "magnitude_drop"
    duration := dictGet ev "event_duration"
    ra_deg := (parse_ra_dec ev).1
    dec_deg := (parse_ra_dec ev).2 }

/-- `windows = [90, 180, 270, 365]`. -/
def windowsList : List ℕ := [90, 180, 270, 365]

/-- `thresholds = [(15.0, -12.0), (12.0, -8.0), (10.0, -6.0), (8.0, -3.0),
(5.0, 0.0)]`. -/
def thresholdsList : List (ℚ × ℚ) :=
  [(15, -12), (12, -8), (10, -6), (8, -3), (5, 0)]

/-- The deduplicated, sorted visible survivors of one (raw set, threshold)
evaluation in `main`. -/
def survivors (A : Astro) (now : ℚ) (raw : List RawEvent) (th : ℚ × ℚ) :
    List RawEvent :=
  dedupStep (sort_by_time (filter_visible A now th.1 th.2 raw))

/-- The inner threshold loop of `main`: first tier with at least 5
deduplicated visible survivors wins. -/
def tryThresholds (A : Astro) (now : ℚ) (raw : List RawEvent) :
    List (ℚ × ℚ) → Option (List RawEvent)
  | [] => none
  | th :: rest =>
    let v := survivors A now raw th
    if 5 ≤ v.length then some v else tryThresholds A now raw rest

/-- The window loop of `main`.  Returns `(collected, fallback_any)`:
a fetch failure skips the window, a fetched window overwrites
`fallback_any` with its sorted first 10 raw events, and the first
(window, threshold) hit stops the search. -/
def searchAux (A : Astro) (now : ℚ) (fetch : ℕ → Option (List RawEvent)) :
    List ℕ → List RawEvent → List RawEvent × List RawEvent
  | [], fb => ([], fb)
  | d :: rest, fb =>
    match fetch d with
    | none => searchAux A now fetch rest fb
    | some raw =>
      let fb2 := (sort_by_time raw).take 10
      match tryThresholds A now raw thresholdsList with
      | some v => (v, fb2)
      | none => searchAux A now fetch rest fb2

/-- The future-only re-filter and final selection of `main`:
`collected = future_only` when at least 5 remain, else
`future_only or collected`. -/
def finalSelect (A : Astro) (now : ℚ) (collected : List RawEvent) :
    List RawEvent :=
  let future_only := collected.filter (is_future A now)
  if 5 ≤ future_only.length then future_only
  else if future_only.isEmpty then collected else future_only

/-- The list of events passed to `normalize` at the end of `main`:
`sort_by_time(collected)[:10]` after the future-only selection. -/
def selectedEvents (A : Astro) (now : ℚ)
    (fetch : ℕ → Option (List RawEvent)) : List RawEvent :=
  (sort_by_time
    (finalSelect A now (searchAux A now fetch windowsList []).1)).take 10

/-- The final published output of `main`
(`final_events`, written to `data/occultation_events.json`). -/
def pipelineOutput (A : Astro) (now : ℚ)
    (fetch : ℕ → Option (List RawEvent)) : List NormalizedEvent :=
  (selectedEvents A now fetch).map normalizeEv

/-- The search of `searchAux` instrumented with logs: which windows were
fetched, and which (window, threshold) evaluations ran on which raw set. -/
structure SearchTrace where
  collected : List RawEvent
  fallback : List RawEvent
  fetchLog : List ℕ
  evalLog : List (ℕ × (ℚ × ℚ) × List RawEvent)

/-- `tryThresholds` instrumented with the list of evaluated
(threshold, raw set) pairs, in evaluation order. -/
def tryThresholdsT (A : Astro) (now : ℚ) (raw : List RawEvent) :
    List (ℚ × ℚ) → Option (List RawEvent) × List ((ℚ × ℚ) × List RawEvent)
  | [] => (none, [])
  | th :: rest =>
    let v := survivors A now raw th
    if 5 ≤ v.length then (some v, [(th, raw)])
    else
      let p := tryThresholdsT A now raw rest
      (p.1, (th, raw) :: p.2)

/-- `searchAux` instrumented with fetch and evaluation logs. -/
def searchAuxT (A : Astro) (now : ℚ) (fetch : ℕ → Option (List RawEvent)) :
    List ℕ → List RawEvent → SearchTrace
  | [], fb => ⟨[], fb, [], []⟩
  | d :: rest, fb =>
    match fetch d with
    | none =>
      let r := searchAuxT A now fetch rest fb
      ⟨r.collected, r.fallback, d :: r.fetchLog, r.evalLog⟩
    | some raw =>
      let fb2 := (sort_by_time raw).take 10
      let p := tryThresholdsT A now raw thresholdsList
      match p.1 with
      | some v => ⟨v, fb2, [d], p.2.map (fun q => (d, q))⟩
      | none =>
        let r := searchAuxT A now fetch rest fb2
        ⟨r.collected, r.fallback, d :: r.fetchLog,
          p.2.map (fun q => (d, q)) ++ r.evalLog⟩

/-- Test fixture: a truthy, non-numeric string value (e.g. a timestamp). -/
def mkStr (s : String) : Val := ⟨true, s, none⟩

/-- Test fixture: a numeric value (`float` succeeds). -/
def numVal (q : ℚ) : Val := ⟨decide (q ≠ 0), "num", some q⟩

/-- Test fixture astronomy capability: `Time` parses anything, to the epoch
`-1` for the string `"past"` and `5` otherwise; `to_datetime` is exact;
every altitude query yields target altitude `20` and sun altitude `-15`. -/
def astroGood : Astro :=
  ⟨fun s => if s = "past" then some (-1) else some 5,
   fun t => some t,
   fun _ _ _ => some (20, -15)⟩

/-- Test fixture: five distinct future visible events. -/
def evG1 : RawEvent :=
  [("date_time", mkStr "2040-01-01T00:00:00Z"),
   ("ra_star_deg", numVal 10), ("dec_star_deg", numVal 20)]

/-- Test fixture: second future visible event. -/
def evG2 : RawEvent :=
  [("date_time", mkStr "2040-01-02T00:00:00Z"),
   ("ra_star_deg", numVal 11), ("dec_star_deg", numVal 21)]

/-- Test fixture: third future visible event. -/
def evG3 : RawEvent :=
  [("date_time", mkStr "2040-01-03T00:00:00Z"),
   ("ra_star_deg", numVal 12), ("dec_star_deg", numVal 22)]

/-- Test fixture: fourth future visible event. -/
def evG4 : RawEvent :=
  [("date_time", mkStr "2040-01-04T00:00:00Z"),
   ("ra_star_deg", numVal 13), ("dec_star_deg", numVal 23)]

/-- Test fixture: fifth future visible event. -/
def evG5 : RawEvent :=
  [("date_time", mkStr "2040-01-05T00:00:00Z"),
   ("ra_star_deg", numVal 14), ("dec_star_deg", numVal 24)]

/-- Test fixture: a past event (epoch `-1` under `astroGood`). -/
def evPast : RawEvent := [("date_time", mkStr "past")]

/-- Test fixture: a fetch returning the five good events for every window. -/
def fetchGood : ℕ → Option (List RawEvent) :=
  fun _ => some [evG1, evG2, evG3, evG4, evG5]

/-- Test fixture: an event with a timestamp but no coordinates; it is
fetched but can never pass the visibility filter. -/
def evNoCoord : RawEvent := [("date_time", mkStr "2031-01-01T00:00:00Z")]

/-- Test fixture: a fetch returning only `evNoCoord` for every window. -/
def fetchNoCoord : ℕ → Option (List RawEvent) :=
  fun _ => some [evNoCoord]

/-- Test fixture: a fetch that raises for every window. -/
def fetchFail : ℕ → Option (List RawEvent) := fun _ => none

/-- Counterexample fixture: an event whose timestamp string is literally
`"na"` (so its de-dup key coincides with a timestamp-less event's key while
its sort key does not). -/
def fNa : RawEvent :=
  [("date_time", mkStr "na"), ("name", mkStr "X"), ("magnitude_drop", numVal 1)]

/-- Counterexample fixture: an event with no timestamp, same name as `fNa`. -/
def fNo : RawEvent :=
  [("name", mkStr "X"), ("magnitude_drop", numVal 2)]

/-- Witness fixture: duplicate-key event, first occurrence. -/
def g1 : RawEvent :=
  [("date_time", mkStr "2040-05-05T00:00:00Z"), ("name", mkStr "X"),
   ("magnitude_drop", numVal 1)]

/-- Witness fixture: duplicate-key event, last occurrence. -/
def g2 : RawEvent :=
  [("date_time", mkStr "2040-05-05T00:00:00Z"), ("name", mkStr "X"),
   ("magnitude_drop", numVal 2)]

/-- Counterexample fixture: an event with no extractable timestamp. -/
def eAbs : RawEvent := []

/-- Counterexample fixture: an event whose timestamp string `"zzz"` compares
above the `"9999-12-31T00:00:00Z"` sentinel. -/
def eZ : RawEvent := [("date_time", mkStr "zzz")]

/-- Witness fixture: an event carrying both star and target coordinates. -/
def evBoth : RawEvent :=
  [("date_time", mkStr "2040-01-01T00:00:00Z"),
   ("ra_star_deg", numVal 1), ("dec_star_deg", numVal 2),
   ("ra_target_deg", numVal 3), ("dec_target_deg", numVal 4)]

/-- Witness fixture: a malformed right ascension next to a well-formed
declination. -/
def evMal : RawEvent :=
  [("ra_deg", mkStr "bad"), ("dec_deg", numVal 4)]

/-- Invariant of the de-dup dict: keys are distinct, and each stored value's
de-dup key is its stored key. -/
def DictOK (d : List ((String × Val) × RawEvent)) : Prop :=
  (d.map Prod.fst).Nodup ∧ ∀ p ∈ d, dedupKey p.2 = p.1

/-! ### Order lemmas for the sort relation -/

theorem listLe_refl (as : List Char) : listLe as as = true := by
  induction as with
  | nil => rfl
  | cons a as ih =>
    simp only [listLe, lt_irrefl, if_false, ih]

theorem listLe_total (as bs : List Char) :
    listLe as bs = true ∨ listLe bs as = true := by
  induction as generalizing bs with
  | nil => exact Or.inl rfl
  | cons a as ih =>
    cases bs with
    | nil => exact Or.inr rfl
    | cons b bs =>
      rcases lt_trichotomy a b with hab | hab | hab
      · exact Or.inl (by simp [listLe, hab])
      · subst hab
        rcases ih bs with h | h
        · exact Or.inl (by simp [listLe, lt_irrefl, h])
        · exact Or.inr (by simp [listLe, lt_irrefl, h])
      · exact Or.inr (by simp [listLe, hab])

theorem listLe_trans {as bs cs : List Char} (h1 : listLe as bs = true)
    (h2 : listLe bs cs = true) : listLe as cs = true := by
  induction as generalizing bs cs with
  | nil => rfl
  | cons a as ih =>
    cases bs with
    | nil => simp [listLe] at h1
    | cons b bs =>
      cases cs with
      | nil => simp [listLe] at h2
      | cons c cs =>
        simp only [listLe] at h1 h2 ⊢
        rcases lt_trichotomy a b with hab | hab | hab
        · rcases lt_trichotomy b c with hbc | hbc | hbc
          · simp [lt_trans hab hbc]
          · subst hbc; simp [hab]
          · simp [hbc, asymm hbc] at h2
        · subst hab
          simp only [lt_irrefl, if_false] at h1
          rcases lt_trichotomy a c with hac | hac | hac
          · simp [hac]
          · subst hac
            simp only [lt_irrefl, if_false] at h2 ⊢
            exact ih h1 h2
          · simp [hac, asymm hac] at h2
        · simp [hab, asymm hab] at h1

theorem strLe_refl (s : String) : strLe s s = true := listLe_refl s.data

theorem strLe_total (a b : String) : strLe a b = true ∨ strLe b a = true :=
  listLe_total a.data b.data

theorem strLe_trans {a b c : String} (h1 : strLe a b = true)
    (h2 : strLe b c = true) : strLe a c = true := listLe_trans h1 h2

instance : IsTotal RawEvent keyLe :=
  ⟨fun a b => strLe_total (sortKey a) (sortKey b)⟩

instance : IsTrans RawEvent keyLe :=
  ⟨fun _ _ _ h1 h2 => strLe_trans h1 h2⟩

theorem keyLe_of_not_keyLe {a b : RawEvent} (h : ¬ keyLe a b) : keyLe b a :=
  (strLe_total (sortKey a) (sortKey b)).resolve_left h

theorem sortKey_ne_of_not_keyLe {a b : RawEvent} (h : ¬ keyLe a b) :
    sortKey a ≠ sortKey b := by
  intro he
  exact h (by unfold keyLe; rw [he]; exact strLe_refl _)

/-! ### Sort lemmas: permutation, membership, sortedness, stability -/

theorem sort_by_time_perm (xs : List RawEvent) :
    (sort_by_time xs).Perm xs :=
  List.perm_insertionSort keyLe xs

theorem mem_sort_by_time {x : RawEvent} {xs : List RawEvent} :
    x ∈ sort_by_time xs ↔ x ∈ xs :=
  List.mem_insertionSort keyLe

theorem sort_by_time_sorted (xs : List RawEvent) :
    (sort_by_time xs).Pairwise keyLe :=
  List.sorted_insertionSort keyLe xs

theorem filter_sortKey_orderedInsert (s : String) (x : RawEvent)
    (l : List RawEvent) :
    (l.orderedInsert keyLe x).filter (fun e => decide (sortKey e = s)) =
    (x :: l).filter (fun e => decide (sortKey e = s)) := by
  induction l with
  | nil => rfl
  | cons y ys ih =>
    simp only [List.orderedInsert]
    by_cases h : keyLe x y
    · rw [if_pos h]
    · rw [if_neg h]
      have hne := sortKey_ne_of_not_keyLe h
      by_cases hy : sortKey y = s
      · have hx : sortKey x ≠ s := fun hx => hne (hx.trans hy.symm)
        simp [List.filter_cons, hy, hx, ih]
      · simp [List.filter_cons, hy, ih]

theorem filter_sortKey_sort_by_time (s : String) (xs : List RawEvent) :
    (sort_by_time xs).filter (fun e => decide (sortKey e = s)) =
    xs.filter (fun e => decide (sortKey e = s)) := by
  induction xs with
  | nil => rfl
  | cons x xs ih =>
    show ((sort_by_time xs).orderedInsert keyLe x).filter _ = _
    rw [filter_sortKey_orderedInsert]
    simp only [List.filter_cons, ih]

theorem sortKey_of_absent {ev : RawEvent}
    (h : parse_dt_str ev = none ∨ parse_dt_str ev = some "") :
    sortKey ev = "9999-12-31T00:00:00Z" := by
  rcases h with h | h <;> simp [sortKey, orStr, h]

/-- C6 counterexample: the sentinel `"9999-12-31T00:00:00Z"` is not maximal
among strings, so an entry with no extractable timestamp (`eAbs`) is sorted
BEFORE an entry whose timestamp string `"zzz"` compares above the sentinel —
refuting "every entry with no extractable timestamp is placed strictly after
every entry that has one". -/
theorem c6_sort_counterexample :
    sort_by_time [eAbs, eZ] = [eAbs, eZ] ∧ parse_dt_str eAbs = none ∧
    parse_dt_str eZ = some "zzz" := by decide

/-- C6 (amended): `sort_by_time` is non-decreasing by the effective sort key
(code-point order on the timestamp string, with entries lacking a truthy
timestamp taking the sentinel key `"9999-12-31T00:00:00Z"`); hence
timestamp-less entries come after every entry whose key is below the
sentinel (though not after entries whose timestamp string compares at or
above the sentinel); and the sort is stable: entries with equal sort keys
keep their relative input order. -/
theorem c6_sort_total_order (xs : List RawEvent) :
    (sort_by_time xs).Pairwise (fun a b => strLe (sortKey a) (sortKey b) = true) ∧
    (∀ ev : RawEvent, (parse_dt_str ev = none ∨ parse_dt_str ev = some "") →
      sortKey ev = "9999-12-31T00:00:00Z") ∧
    (sort_by_time xs).Pairwise (fun a b =>
      (parse_dt_str a = none ∨ parse_dt_str a = some "") →
      strLe "9999-12-31T00:00:00Z" (sortKey b) = true) ∧
    (∀ s, (sort_by_time xs).filter (fun e => decide (sortKey e = s)) =
      xs.filter (fun e => decide (sortKey e = s))) := by
  refine ⟨sort_by_time_sorted xs, fun ev h => sortKey_of_absent h, ?_, ?_⟩
  · exact (sort_by_time_sorted xs).imp
      (fun {a b} hab habs => by rw [← sortKey_of_absent habs]; exact hab)
  · exact fun s => filter_sortKey_sort_by_time s xs

/-- C6 witness: the stability clause of `c6_sort_total_order` instantiated on
a concrete list and key. -/
theorem c6_sort_total_order_witness :
    (sort_by_time [eZ, eAbs, g1]).filter
      (fun e => decide (sortKey e = "zzz")) =
    [eZ, eAbs, g1].filter (fun e => decide (sortKey e = "zzz")) :=
  (c6_sort_total_order [eZ, eAbs, g1]).2.2.2 "zzz"

/-! ### De-dup dict lemmas -/

theorem values_filter_of_coherent {k : String × Val}
    (d : List ((String × Val) × RawEvent))
    (hco : ∀ p ∈ d, dedupKey p.2 = p.1) :
    (d.map Prod.snd).filter (fun e => decide (dedupKey e = k)) =
    (d.filter (fun p => decide (p.1 = k))).map Prod.snd := by
  induction d with
  | nil => rfl
  | cons p ps ih =>
    have hp := hco p (List.mem_cons_self p ps)
    have ihs := ih (fun q hq => hco q (List.mem_cons_of_mem _ hq))
    simp only [List.map_cons, List.filter_cons, hp]
    by_cases h : p.1 = k
    · simp [h, ihs]
    · simp [h, ihs]

theorem filter_key_of_mem {k : String × Val} {v : RawEvent}
    (d : List ((String × Val) × RawEvent)) (hnd : (d.map Prod.fst).Nodup)
    (hmem : (k, v) ∈ d) :
    d.filter (fun p => decide (p.1 = k)) = [(k, v)] := by
  induction d with
  | nil => cases hmem
  | cons p ps ih =>
    simp only [List.map_cons, List.nodup_cons] at hnd
    rcases List.mem_cons.mp hmem with heq | hmem2
    · subst heq
      simp only [List.filter_cons, decide_eq_true_eq, if_pos rfl]
      have : ps.filter (fun p => decide (p.1 = k)) = [] := by
        apply List.filter_eq_nil_iff.mpr
        intro q hq
        simp only [decide_eq_true_eq]
        intro hqk
        exact hnd.1 (List.mem_map.mpr ⟨q, hq, hqk⟩)
      simp [this]
    · have hkin : k ∈ ps.map Prod.fst := List.mem_map.mpr ⟨(k, v), hmem2, rfl⟩
      have hne : p.1 ≠ k := fun hpk => hnd.1 (by rw [hpk]; exact hkin)
      simp only [List.filter_cons, decide_eq_true_eq, if_neg hne]
      exact ih hnd.2 hmem2

theorem dictInsert_not_mem {d : List ((String × Val) × RawEvent)}
    {k : String × Val}
    (h : ¬ d.any (fun p => decide (p.1 = k)) = true) :
    ∀ p ∈ d, p.1 ≠ k := by
  intro p hp hpk
  exact h (List.any_eq_true.mpr ⟨p, hp, by simp [hpk]⟩)

theorem dictInsert_ok {d : List ((String × Val) × RawEvent)}
    {k : String × Val} {v : RawEvent}
    (hok : DictOK d) (hkv : dedupKey v = k) : DictOK (dictInsert d k v) := by
  rcases hok with ⟨hnd, hco⟩
  unfold dictInsert
  split_ifs with h
  · have hkeys : (d.map (fun p => if p.1 = k then (k, v) else p)).map Prod.fst
        = d.map Prod.fst := by
      rw [List.map_map]
      apply List.map_congr_left
      intro p _
      by_cases hpk : p.1 = k
      · simp [hpk]
      · simp [hpk]
    constructor
    · rw [hkeys]; exact hnd
    · intro q hq
      rcases List.mem_map.mp hq with ⟨p, hp, hrepl⟩
      by_cases hpk : p.1 = k
      · rw [if_pos hpk] at hrepl
        rw [← hrepl]
        exact hkv
      · rw [if_neg hpk] at hrepl
        rw [← hrepl]
        exact hco p hp
  · constructor
    · rw [List.map_append]
      refine (List.perm_append_singleton _ _).nodup_iff.mpr ?_
      rw [List.nodup_cons]
      exact ⟨fun hk => by
        rcases List.mem_map.mp hk with ⟨p, hp, hpk⟩
        exact dictInsert_not_mem h p hp hpk, hnd⟩
    · intro q hq
      rcases List.mem_append.mp hq with hq | hq
      · exact hco q hq
      · rcases List.mem_singleton.mp hq with rfl
        exact hkv

theorem dictInsert_mem_self {d : List ((String × Val) × RawEvent)}
    {k : String × Val} {v : RawEvent} : (k, v) ∈ dictInsert d k v := by
  unfold dictInsert
  split_ifs with h
  · rcases List.any_eq_true.mp h with ⟨p, hp, hpk⟩
    simp only [decide_eq_true_eq] at hpk
    exact List.mem_map.mpr ⟨p, hp, by rw [if_pos hpk]⟩
  · exact List.mem_append.mpr (Or.inr (List.mem_singleton.mpr rfl))

theorem dictInsert_values_filter_self
    {d : List ((String × Val) × RawEvent)} {k : String × Val} {v : RawEvent}
    (hok : DictOK d) (hkv : dedupKey v = k) :
    ((dictInsert d k v).map Prod.snd).filter
      (fun e => decide (dedupKey e = k)) = [v] := by
  have hok2 := dictInsert_ok hok hkv
  rw [values_filter_of_coherent _ hok2.2,
    filter_key_of_mem _ hok2.1 dictInsert_mem_self]
  rfl

theorem dictInsert_values_filter_ne
    {d : List ((String × Val) × RawEvent)} {k kq : String × Val} {v : RawEvent}
    (hok : DictOK d) (hkv : dedupKey v = k) (hne : k ≠ kq) :
    ((dictInsert d k v).map Prod.snd).filter
      (fun e => decide (dedupKey e = kq)) =
    (d.map Prod.snd).filter (fun e => decide (dedupKey e = kq)) := by
  rw [values_filter_of_coherent _ (dictInsert_ok hok hkv).2,
    values_filter_of_coherent _ hok.2]
  congr 1
  unfold dictInsert
  split_ifs with h
  · rw [List.filter_map]
    have hpt : (d.filter
        ((fun p => decide (p.1 = kq)) ∘ fun p => if p.1 = k then (k, v) else p))
        = d.filter (fun p => decide (p.1 = kq)) := by
      apply List.filter_congr
      intro p _
      by_cases hpk : p.1 = k
      · simp [hpk, Ne.symm (hpk ▸ hne)]
      · simp [hpk]
    rw [hpt]
    conv_rhs => rw [← List.map_id (List.filter (fun p => decide (p.1 = kq)) d)]
    apply List.map_congr_left
    intro p hp
    have hpkq : p.1 = kq := by
      simpa using (List.mem_filter.mp hp).2
    rw [if_neg (fun hh => hne (hh.symm.trans hpkq))]
    rfl
  · rw [List.filter_append]
    simp [hne]

theorem dedupFold_ok :
    ∀ (ys : List RawEvent) (d), DictOK d → DictOK (dedupFold d ys)
  | [], _, hok => hok
  | ev :: rest, d, hok =>
    dedupFold_ok rest (dictInsert d (dedupKey ev) ev) (dictInsert_ok hok rfl)

theorem dedupFold_filter (k : String × Val) :
    ∀ (ys : List RawEvent) (d), DictOK d →
    ((dedupFold d ys).map Prod.snd).filter (fun e => decide (dedupKey e = k)) =
    (match (ys.filter (fun e => decide (dedupKey e = k))).getLast? with
     | some v => [v]
     | none => (d.map Prod.snd).filter (fun e => decide (dedupKey e = k))) := by
  intro ys
  induction ys with
  | nil => intro d hok; rfl
  | cons ev rest ih =>
    intro d hok
    show ((dedupFold (dictInsert d (dedupKey ev) ev) rest).map Prod.snd).filter _ = _
    rw [ih (dictInsert d (dedupKey ev) ev) (dictInsert_ok hok rfl)]
    by_cases hk : dedupKey ev = k
    · simp only [List.filter_cons, hk, decide_eq_true_eq, if_true]
      cases hRF : rest.filter (fun e => decide (dedupKey e = k)) with
      | nil =>
        simp only [hRF, List.getLast?_nil, List.getLast?_singleton]
        exact dictInsert_values_filter_self hok hk
      | cons f fs =>
        simp only [hRF, List.getLast?_cons_cons]
        cases hL : (f :: fs).getLast? with
        | none => simp at hL
        | some x => rfl
    · simp only [List.filter_cons, decide_eq_true_eq, if_neg hk]
      cases hRF : (rest.filter (fun e => decide (dedupKey e = k))).getLast? with
      | none =>
        exact dictInsert_values_filter_ne hok rfl hk
      | some x => rfl

theorem dedupStep_filter (ys : List RawEvent) (k : String × Val) :
    (dedupStep ys).filter (fun e => decide (dedupKey e = k)) =
    ((ys.filter (fun e => decide (dedupKey e = k))).getLast?).toList := by
  have hbase : DictOK ([] : List ((String × Val) × RawEvent)) :=
    ⟨List.nodup_nil, by simp⟩
  have := dedupFold_filter k ys [] hbase
  rw [dedupStep, this]
  cases (ys.filter (fun e => decide (dedupKey e = k))).getLast? <;> rfl

theorem dedupStep_pairwise_keys (ys : List RawEvent) :
    (dedupStep ys).Pairwise (fun a b => dedupKey a ≠ dedupKey b) := by
  have hok := dedupFold_ok ys [] ⟨List.nodup_nil, by simp⟩
  rcases hok with ⟨hnd, hco⟩
  rw [dedupStep]
  rw [List.pairwise_map]
  have hfst : (dedupFold [] ys).Pairwise (fun p q => p.1 ≠ q.1) :=
    List.pairwise_map.mp hnd
  exact hfst.imp_of_mem (fun {p q} hp hq hne => by
    rw [hco p hp, hco q hq]; exact hne)

theorem filter_dedupKey_sort_by_time (xs : List RawEvent)
    (h : ∀ ev ∈ xs, ∃ s, parse_dt_str ev = some s ∧ s ≠ "")
    (k : String × Val) :
    (sort_by_time xs).filter (fun e => decide (dedupKey e = k)) =
    xs.filter (fun e => decide (dedupKey e = k)) := by
  have hpoint : ∀ l : List RawEvent,
      (∀ ev ∈ l, ∃ s, parse_dt_str ev = some s ∧ s ≠ "") →
      l.filter (fun e => decide (dedupKey e = k)) =
      (l.filter (fun e => decide (sortKey e = k.1))).filter
        (fun e => decide (dedupKey e = k)) := by
    intro l hl
    rw [List.filter_filter]
    apply List.filter_congr
    intro ev hev
    rcases hl ev hev with ⟨s, hs, hns⟩
    by_cases hdk : dedupKey ev = k
    · have hsk : sortKey ev = k.1 := by
        rw [← hdk]
        simp [dedupKey, sortKey, orStr, hs, hns]
      simp [hdk, hsk]
    · simp [hdk]
  rw [hpoint (sort_by_time xs) (fun ev hev => h ev (mem_sort_by_time.mp hev)),
    filter_sortKey_sort_by_time, ← hpoint xs h]

/-- C5 counterexample: the de-dup key uses the sentinel `"na"` while the sort
key uses `"9999-12-31T00:00:00Z"`, so an event whose timestamp string is
literally `"na"` shares a de-dup key with a timestamp-less event but not a
sort key; the pre-dedup sort then reorders the two, and the surviving entry
(`fNa`) is NOT the one that appeared last in the input order (`fNo`). -/
theorem c5_dedup_counterexample :
    (dedupStep (sort_by_time [fNa, fNo])).filter
      (fun e => decide (dedupKey e = ("na", mkStr "X"))) = [fNa] ∧
    ([fNa, fNo].filter
      (fun e => decide (dedupKey e = ("na", mkStr "X")))).getLast? = some fNo ∧
    fNa ≠ fNo := by decide

/-- C5 (amended): for every finite input sequence in which every event has an
extractable, non-empty timestamp string, the sorted-then-deduplicated output
has no two entries sharing a (timestamp, name) de-dup key, and the surviving
entry for each key is the one that appeared last in the original input order
(last-write-wins), even though the implementation deduplicates after
sorting. -/
theorem c5_dedup_last_write_wins (xs : List RawEvent)
    (h : ∀ ev ∈ xs, ∃ s, parse_dt_str ev = some s ∧ s ≠ "") :
    (dedupStep (sort_by_time xs)).Pairwise
      (fun a b => dedupKey a ≠ dedupKey b) ∧
    ∀ k, (dedupStep (sort_by_time xs)).filter
        (fun e => decide (dedupKey e = k)) =
      ((xs.filter (fun e => decide (dedupKey e = k))).getLast?).toList := by
  refine ⟨dedupStep_pairwise_keys _, fun k => ?_⟩
  rw [dedupStep_filter, filter_dedupKey_sort_by_time xs h k]

/-- C5 witness: two events sharing the (timestamp, name) key; the survivor
for that key is the last input occurrence `g2`. -/
theorem c5_dedup_last_write_wins_witness :
    (dedupStep (sort_by_time [g1, g2])).filter
      (fun e => decide (dedupKey e = dedupKey g1)) =
    (([g1, g2].filter
      (fun e => decide (dedupKey e = dedupKey g1))).getLast?).toList ∧
    ([g1, g2].filter
      (fun e => decide (dedupKey e = dedupKey g1))).getLast? = some g2 := by
  have h : ∀ ev ∈ [g1, g2], ∃ s, parse_dt_str ev = some s ∧ s ≠ "" := by
    intro ev hev
    rcases List.mem_cons.mp hev with rfl | hev2
    · exact ⟨"2040-05-05T00:00:00Z", by decide, by decide⟩
    rcases List.mem_cons.mp hev2 with rfl | hev3
    · exact ⟨"2040-05-05T00:00:00Z", by decide, by decide⟩
    · cases hev3
  exact ⟨(c5_dedup_last_write_wins [g1, g2] h).2 (dedupKey g1), by decide⟩

/-! ### Coordinate extraction and final-selection claims -/

/-- C10: coordinate extraction is all-or-nothing — `parse_ra_dec` returns
either both a right ascension and a declination or neither, and accordingly
in every `NormalizedEvent` the `ra_deg` field is absent iff `dec_deg` is. -/
theorem c10_coord_all_or_nothing (ev : RawEvent) :
    ((parse_ra_dec ev).1 = none ↔ (parse_ra_dec ev).2 = none) ∧
    ((normalizeEv ev).ra_deg = none ↔ (normalizeEv ev).dec_deg = none) := by
  have h : (parse_ra_dec ev).1 = none ↔ (parse_ra_dec ev).2 = none := by
    unfold parse_ra_dec
    rcases tryPair ev "ra_star_deg" "dec_star_deg" with _ | ⟨r, d⟩
    · rcases tryPair ev "ra_target_deg" "dec_target_deg" with _ | ⟨r, d⟩
      · rcases firstCoord ev coordCandidates with _ | ⟨r, d⟩
        · simp
        · simp
      · simp
    · simp
  exact ⟨h, by simpa [normalizeEv] using h⟩

/-- C2: after the controller selects a set, the future-only re-filter keeps
exactly the future events whenever at least one event is future (whether or
not the quota of 5 is met), and reverts to the pre-filter set only when the
future-only set is completely empty. -/
theorem c2_future_refilter (A : Astro) (now : ℚ) (collected : List RawEvent) :
    (5 ≤ (collected.filter (is_future A now)).length →
      finalSelect A now collected = collected.filter (is_future A now)) ∧
    ((collected.filter (is_future A now)).length < 5 →
      collected.filter (is_future A now) ≠ [] →
      finalSelect A now collected = collected.filter (is_future A now)) ∧
    (collected.filter (is_future A now) = [] →
      finalSelect A now collected = collected) := by
  unfold finalSelect
  refine ⟨fun h5 => by simp [h5], fun hlt hne => ?_, fun hemp => ?_⟩
  · rw [if_neg (by omega), if_neg (by simp [List.isEmpty_iff, hne])]
  · simp [hemp]

/-- C2 witness: the three re-filter regimes at concrete inputs (five future
events; one future and one past; only a past event). -/
theorem c2_future_refilter_witness :
    finalSelect astroGood 0 [evG1, evG2, evG3, evG4, evG5] =
      [evG1, evG2, evG3, evG4, evG5].filter (is_future astroGood 0) ∧
    finalSelect astroGood 0 [evG1, evPast] =
      [evG1, evPast].filter (is_future astroGood 0) ∧
    finalSelect astroGood 10 [evPast] = [evPast] :=
  ⟨(c2_future_refilter astroGood 0 _).1 (by decide),
   (c2_future_refilter astroGood 0 _).2.1 (by decide) (by decide),
   (c2_future_refilter astroGood 10 _).2.2 (by decide)⟩

/-! ### Fetch-failure tolerance -/

theorem tryThresholds_nil_raw (A : Astro) (now : ℚ) :
    ∀ ths : List (ℚ × ℚ), tryThresholds A now [] ths = none
  | [] => rfl
  | _ :: rest => tryThresholds_nil_raw A now rest

theorem searchAux_cons (A : Astro) (now : ℚ)
    (fetch : ℕ → Option (List RawEvent)) (dd : ℕ) (rest : List ℕ)
    (fb : List RawEvent) :
    searchAux A now fetch (dd :: rest) fb =
    (match fetch dd with
     | none => searchAux A now fetch rest fb
     | some raw =>
       match tryThresholds A now raw thresholdsList with
       | some v => (v, (sort_by_time raw).take 10)
       | none => searchAux A now fetch rest ((sort_by_time raw).take 10)) :=
  rfl

theorem searchAux_all_failed (A : Astro) (now : ℚ)
    (fetch : ℕ → Option (List RawEvent)) :
    ∀ (ws : List ℕ) (fb : List RawEvent),
    (∀ dd ∈ ws, fetch dd = none ∨ fetch dd = some []) →
    (searchAux A now fetch ws fb).1 = [] := by
  intro ws
  induction ws with
  | nil => intro fb _; rfl
  | cons dd rest ih =>
    intro fb h
    rcases h dd (List.mem_cons_self dd rest) with hf | hf
    · rw [searchAux_cons, hf]
      exact ih fb (fun e he => h e (List.mem_cons_of_mem _ he))
    · rw [searchAux_cons, hf]
      simp only [tryThresholds_nil_raw]
      exact ih _ (fun e he => h e (List.mem_cons_of_mem _ he))

/-- C7: a fetch failure for one window makes the controller proceed to the
next window unchanged; and when fetching fails (or yields nothing) for every
window, the run still completes and publishes an empty output — the search
and the final selection are total functions, so no exception can escape. -/
theorem c7_fetch_failure_tolerance :
    (∀ (A : Astro) (now : ℚ) (fetch : ℕ → Option (List RawEvent))
      (dd : ℕ) (rest : List ℕ) (fb : List RawEvent), fetch dd = none →
      searchAux A now fetch (dd :: rest) fb = searchAux A now fetch rest fb) ∧
    (∀ (A : Astro) (now : ℚ) (fetch : ℕ → Option (List RawEvent)),
      (∀ dd ∈ windowsList, fetch dd = none ∨ fetch dd = some []) →
      pipelineOutput A now fetch = []) := by
  constructor
  · intro A now fetch dd rest fb h
    rw [searchAux_cons, h]
  · intro A now fetch h
    have hcoll := searchAux_all_failed A now fetch windowsList [] h
    unfold pipelineOutput selectedEvents
    rw [hcoll]
    rfl

/-- C7 witness: a fetch that raises for every window skips each window and
yields the empty published output. -/
theorem c7_fetch_failure_tolerance_witness :
    searchAux astroGood 0 fetchFail (90 :: [180, 270, 365]) [] =
      searchAux astroGood 0 fetchFail [180, 270, 365] [] ∧
    pipelineOutput astroGood 0 fetchFail = [] :=
  ⟨c7_fetch_failure_tolerance.1 astroGood 0 fetchFail 90 [180, 270, 365] [] rfl,
   c7_fetch_failure_tolerance.2 astroGood 0 fetchFail (fun _ _ => Or.inl rfl)⟩

/-! ### Visibility decision -/

/-- C4: for an event with a parseable, strictly future timestamp and an
extractable coordinate pair, if the astronomy computation succeeds the
visibility filter keeps the event iff target altitude is at least the tier's
minimum and sun altitude at most the tier's maximum; if the astronomy
computation fails the event is not visible.  `filter_visible` is the total
function `List.filter` of this per-event test, so no exception reaches its
caller. -/
theorem c4_visibility_decision (A : Astro) (now minAlt sunMax : ℚ)
    (ev : RawEvent) (s : String) (t d ra dec : ℚ)
    (h1 : parse_dt_str ev = some s) (h2 : s ≠ "")
    (h3 : A.timeParse s = some t) (h4 : A.toDT t = some d) (h5 : now < d)
    (h6 : parse_ra_dec ev = (some ra, some dec)) :
    (∀ alt sun : ℚ, A.altPair ra dec t = some (alt, sun) →
      (visibleOne A now minAlt sunMax ev = true ↔
        minAlt ≤ alt ∧ sun ≤ sunMax)) ∧
    (A.altPair ra dec t = none → visibleOne A now minAlt sunMax ev = false) ∧
    (∀ evs : List RawEvent,
      filter_visible A now minAlt sunMax evs =
        evs.filter (visibleOne A now minAlt sunMax)) := by
  have hdn : decide (d ≤ now) = false := decide_eq_false (not_le.mpr h5)
  refine ⟨fun alt sun ha => ?_, fun ha => ?_, fun evs => rfl⟩
  · simp [visibleOne, h1, h2, h3, h4, h6, ha, hdn]
  · simp [visibleOne, h1, h2, h3, h4, h6, ha, hdn]

/-- C4 witness: a concrete future event with coordinates under the fixture
astronomy capability passes the strictest tier. -/
theorem c4_visibility_decision_witness :
    visibleOne astroGood 0 15 (-12) evG1 = true :=
  ((c4_visibility_decision astroGood 0 15 (-12) evG1 "2040-01-01T00:00:00Z"
      5 5 10 20 (by decide) (by decide) (by decide) (by decide) (by decide)
      (by decide)).1 20 (-15) (by decide)).mpr (by decide)

/-! ### Field extraction -/

theorem firstTruthy_append (ev : RawEvent) :
    ∀ pre rest : List String,
    (∀ k2 ∈ pre, ∀ w, dictGet ev k2 = some w → w.truthy = false) →
    firstTruthy ev (pre ++ rest) = firstTruthy ev rest := by
  intro pre
  induction pre with
  | nil => intro rest _; rfl
  | cons kk ks ih =>
    intro rest h
    have htail : ∀ k2 ∈ ks, ∀ w, dictGet ev k2 = some w → w.truthy = false :=
      fun k2 hk2 => h k2 (List.mem_cons_of_mem _ hk2)
    cases hg : dictGet ev kk with
    | none =>
      simp only [List.cons_append, firstTruthy, hg]
      exact ih rest htail
    | some w =>
      have hw := h kk (List.mem_cons_self _ _) w hg
      simp only [List.cons_append, firstTruthy, hg, hw, Bool.false_eq_true,
        if_false]
      exact ih rest htail

/-- C8: field extraction tries an ordered list of candidate field names and
the first present-and-truthy key wins; a present-but-malformed numeric
coordinate value makes the candidate pair fail exactly like an absent field
(the extractor moves on, it cannot raise since it is a total function); and
when both star and target coordinate pairs are present and well-formed, the
star coordinates are returned. -/
theorem c8_field_extraction :
    (∀ (ev : RawEvent) (pre : List String) (kk : String) (post : List String)
      (v : Val), dtKeys = pre ++ kk :: post →
      (∀ k2 ∈ pre, ∀ w, dictGet ev k2 = some w → w.truthy = false) →
      dictGet ev kk = some v → v.truthy = true →
      parse_dt_str ev = some v.asStr) ∧
    (∀ (ev : RawEvent) (rk dk : String),
      (dictGet ev rk = none ∨ (∃ w, dictGet ev rk = some w ∧ w.toQ = none) ∨
       dictGet ev dk = none ∨ (∃ w, dictGet ev dk = some w ∧ w.toQ = none)) →
      tryPair ev rk dk = none) ∧
    (∀ (ev : RawEvent) (r d : ℚ),
      tryPair ev "ra_star_deg" "dec_star_deg" = some (r, d) →
      parse_ra_dec ev = (some r, some d)) := by
  refine ⟨?_, ?_, ?_⟩
  · intro ev pre kk post v hsplit hpre hget htr
    unfold parse_dt_str
    rw [hsplit, firstTruthy_append ev pre _ hpre]
    simp [firstTruthy, hget, htr]
  · intro ev rk dk h
    unfold tryPair
    rcases h with h | ⟨w, hw, hq⟩ | h | ⟨w, hw, hq⟩
    · simp [h]
    · cases hd : dictGet ev dk with
      | none => simp [hw, hd]
      | some wd => simp [hw, hd, hq]
    · cases hr : dictGet ev rk with
      | none => simp [hr]
      | some wr => simp [hr, h]
    · cases hr : dictGet ev rk with
      | none => simp [hr]
      | some wr => cases hq2 : wr.toQ <;> simp [hr, hw, hq, hq2]
  · intro ev r d h
    unfold parse_ra_dec
    rw [h]

/-- C8 witness: the first candidate key wins on a concrete event; a malformed
numeric field fails the pair; star coordinates are preferred when both star
and target pairs are present. -/
theorem c8_field_extraction_witness :
    parse_dt_str evBoth = some "2040-01-01T00:00:00Z" ∧
    tryPair evMal "ra_deg" "dec_deg" = none ∧
    parse_ra_dec evBoth = (some 1, some 2) := by
  refine ⟨?_, ?_, ?_⟩
  · exact c8_field_extraction.1 evBoth []
      "date_time" ["datetime", "datetime_utc", "time", "utc_time",
        "event_time", "epoch", "epoch_utc", "dateTime"]
      (mkStr "2040-01-01T00:00:00Z") rfl (by simp) (by decide) rfl
  · exact c8_field_extraction.2.1 evMal "ra_deg" "dec_deg"
      (Or.inr (Or.inl ⟨mkStr "bad", by decide, rfl⟩))
  · exact c8_field_extraction.2.2 evBoth 1 2 (by decide)

/-! ### Timestamp invariant of the published output -/

theorem tryThresholds_cons (A : Astro) (now : ℚ) (raw : List RawEvent)
    (th : ℚ × ℚ) (rest : List (ℚ × ℚ)) :
    tryThresholds A now raw (th :: rest) =
    (if 5 ≤ (survivors A now raw th).length then some (survivors A now raw th)
     else tryThresholds A now raw rest) := rfl

theorem finalSelect_eq (A : Astro) (now : ℚ) (c : List RawEvent) :
    finalSelect A now c =
    (if 5 ≤ (c.filter (is_future A now)).length then c.filter (is_future A now)
     else if (c.filter (is_future A now)).isEmpty then c
     else c.filter (is_future A now)) := rfl

theorem mem_dictInsert_values {d : List ((String × Val) × RawEvent)}
    {k : String × Val} {v x : RawEvent}
    (h : x ∈ (dictInsert d k v).map Prod.snd) :
    x ∈ d.map Prod.snd ∨ x = v := by
  unfold dictInsert at h
  split_ifs at h with hc
  · rw [List.map_map] at h
    rcases List.mem_map.mp h with ⟨p, hp, hrepl⟩
    simp only [Function.comp_apply] at hrepl
    by_cases hpk : p.1 = k
    · rw [if_pos hpk] at hrepl
      exact Or.inr hrepl.symm
    · rw [if_neg hpk] at hrepl
      exact Or.inl (hrepl ▸ List.mem_map_of_mem Prod.snd hp)
  · rw [List.map_append] at h
    rcases List.mem_append.mp h with h | h
    · exact Or.inl h
    · exact Or.inr (List.mem_singleton.mp h)

theorem mem_dedupFold_values {x : RawEvent} :
    ∀ (ys : List RawEvent) (d : List ((String × Val) × RawEvent)),
    x ∈ (dedupFold d ys).map Prod.snd → x ∈ d.map Prod.snd ∨ x ∈ ys := by
  intro ys
  induction ys with
  | nil => intro d h; exact Or.inl h
  | cons ev rest ih =>
    intro d h
    rcases ih (dictInsert d (dedupKey ev) ev) h with h2 | h2
    · rcases mem_dictInsert_values h2 with h3 | h3
      · exact Or.inl h3
      · exact Or.inr (h3 ▸ List.mem_cons_self _ _)
    · exact Or.inr (List.mem_cons_of_mem _ h2)

theorem mem_dedupStep {x : RawEvent} {ys : List RawEvent}
    (h : x ∈ dedupStep ys) : x ∈ ys := by
  rcases mem_dedupFold_values ys [] h with h2 | h2
  · cases h2
  · exact h2

theorem visibleOne_timestamp {A : Astro} {now minAlt sunMax : ℚ}
    {ev : RawEvent} (h : visibleOne A now minAlt sunMax ev = true) :
    ∃ s, parse_dt_str ev = some s ∧ s ≠ "" := by
  unfold visibleOne at h
  cases hp : parse_dt_str ev with
  | none => rw [hp] at h; exact absurd h (by simp)
  | some s =>
    rw [hp] at h
    dsimp only at h
    by_cases hs : s = ""
    · rw [if_pos hs] at h; exact absurd h (by simp)
    · exact ⟨s, rfl, hs⟩

theorem mem_survivors {A : Astro} {now : ℚ} {raw : List RawEvent}
    {th : ℚ × ℚ} {ev : RawEvent} (h : ev ∈ survivors A now raw th) :
    visibleOne A now th.1 th.2 ev = true ∧ ev ∈ raw := by
  unfold survivors at h
  have h2 := mem_sort_by_time.mp (mem_dedupStep h)
  have h3 := List.mem_filter.mp h2
  exact ⟨h3.2, h3.1⟩

theorem tryThresholds_some_mem {A : Astro} {now : ℚ} {raw : List RawEvent} :
    ∀ (ths : List (ℚ × ℚ)) (v : List RawEvent),
    tryThresholds A now raw ths = some v →
    ∃ th ∈ ths, v = survivors A now raw th := by
  intro ths
  induction ths with
  | nil => intro v h; cases h
  | cons th rest ih =>
    intro v h
    rw [tryThresholds_cons] at h
    split_ifs at h with hlen
    · exact ⟨th, List.mem_cons_self _ _, (Option.some_injective _ h).symm⟩
    · rcases ih v h with ⟨th2, hth2, hv⟩
      exact ⟨th2, List.mem_cons_of_mem _ hth2, hv⟩

theorem searchAux_collected_timestamp (A : Astro) (now : ℚ)
    (fetch : ℕ → Option (List RawEvent)) :
    ∀ (ws : List ℕ) (fb : List RawEvent) (ev : RawEvent),
    ev ∈ (searchAux A now fetch ws fb).1 →
    ∃ s, parse_dt_str ev = some s ∧ s ≠ "" := by
  intro ws
  induction ws with
  | nil => intro fb ev h; cases h
  | cons dd rest ih =>
    intro fb ev h
    rw [searchAux_cons] at h
    cases hf : fetch dd with
    | none => rw [hf] at h; exact ih fb ev h
    | some raw =>
      rw [hf] at h
      dsimp only at h
      cases ht : tryThresholds A now raw thresholdsList with
      | none => rw [ht] at h; exact ih _ ev h
      | some v =>
        rw [ht] at h
        rcases tryThresholds_some_mem _ v ht with ⟨th, _, rfl⟩
        exact visibleOne_timestamp (mem_survivors h).1

/-- C9: every NormalizedEvent in the final published output has a resolvable
timestamp, and every event reaching the normalization step has an
extractable timestamp, in every run of the pipeline. -/
theorem c9_timestamp_invariant (A : Astro) (now : ℚ)
    (fetch : ℕ → Option (List RawEvent)) :
    (∀ ev ∈ selectedEvents A now fetch, (parse_dt_str ev).isSome = true) ∧
    (∀ ne ∈ pipelineOutput A now fetch, ne.datetime_utc.isSome = true) := by
  have hsel : ∀ ev ∈ selectedEvents A now fetch,
      (parse_dt_str ev).isSome = true := by
    intro ev hev
    unfold selectedEvents at hev
    have h1 := List.mem_of_mem_take hev
    have h2 := mem_sort_by_time.mp h1
    have h3 : ev ∈ (searchAux A now fetch windowsList []).1 := by
      rw [finalSelect_eq] at h2
      split_ifs at h2
      · exact (List.mem_filter.mp h2).1
      · exact h2
      · exact (List.mem_filter.mp h2).1
    rcases searchAux_collected_timestamp A now fetch windowsList [] ev h3 with
      ⟨s, hs, _⟩
    rw [hs]; rfl
  refine ⟨hsel, ?_⟩
  intro ne hne
  rcases List.mem_map.mp hne with ⟨ev, hev, rfl⟩
  simpa [normalizeEv] using hsel ev hev

/-- C9 witness: a successful concrete run publishes `normalizeEv evG1`, and
its timestamp is present. -/
theorem c9_timestamp_invariant_witness :
    (normalizeEv evG1).datetime_utc.isSome = true ∧
    normalizeEv evG1 ∈ pipelineOutput astroGood 0 fetchGood :=
  ⟨(c9_timestamp_invariant astroGood 0 fetchGood).2 (normalizeEv evG1)
    (by decide), by decide⟩

/-! ### The dead fallback variable -/

/-- C1: evaluation of the pipeline at a failing input for the fallback
claim: the fetch succeeds with a non-empty raw set in every window, no
(window, threshold) pair ever reaches 5 visible events, the sorted raw copy
kept "for a graceful fallback" (`fallback_any`, the second component of the
search result) is non-empty — yet the published final output is empty,
because `main` never reads `fallback_any` after the loop. -/
theorem c1_fallback_dead_code_eval :
    fetchNoCoord 90 = some [evNoCoord] ∧
    (searchAux astroGood 0 fetchNoCoord windowsList []).2 = [evNoCoord] ∧
    pipelineOutput astroGood 0 fetchNoCoord = [] := by decide

/-! ### Search-order lemmas for the instrumented controller -/

theorem dropLast_map_eq {α β : Type} (f : α → β) (l : List α) :
    (l.map f).dropLast = l.dropLast.map f := by
  induction l with
  | nil => rfl
  | cons a as ih =>
    cases as with
    | nil => rfl
    | cons b bs => simp only [List.map_cons] at ih ⊢; rw [List.dropLast_cons₂, List.dropLast_cons₂, List.map_cons, ih]

theorem getLast?_cons_ne {α : Type} (a : α) {l : List α} (h : l ≠ []) :
    (a :: l).getLast? = l.getLast? := by
  cases l with
  | nil => exact absurd rfl h
  | cons b bs => exact List.getLast?_cons_cons

theorem pairwise_const_le {α : Type} (l : List α) (c : ℕ) :
    (l.map (fun _ => c)).Pairwise (· ≤ ·) := by
  induction l with
  | nil => exact List.Pairwise.nil
  | cons a as ih => exact List.Pairwise.cons (by simp) ih

theorem tryThresholdsT_cons (A : Astro) (now : ℚ) (raw : List RawEvent)
    (th : ℚ × ℚ) (rest : List (ℚ × ℚ)) :
    tryThresholdsT A now raw (th :: rest) =
    (if 5 ≤ (survivors A now raw th).length
     then (some (survivors A now raw th), [(th, raw)])
     else ((tryThresholdsT A now raw rest).1,
       (th, raw) :: (tryThresholdsT A now raw rest).2)) := rfl

theorem searchAuxT_cons (A : Astro) (now : ℚ)
    (fetch : ℕ → Option (List RawEvent)) (dd : ℕ) (rest : List ℕ)
    (fb : List RawEvent) :
    searchAuxT A now fetch (dd :: rest) fb =
    (match fetch dd with
     | none =>
       ⟨(searchAuxT A now fetch rest fb).collected,
        (searchAuxT A now fetch rest fb).fallback,
        dd :: (searchAuxT A now fetch rest fb).fetchLog,
        (searchAuxT A now fetch rest fb).evalLog⟩
     | some raw =>
       match (tryThresholdsT A now raw thresholdsList).1 with
       | some v =>
         ⟨v, (sort_by_time raw).take 10, [dd],
          (tryThresholdsT A now raw thresholdsList).2.map (fun q => (dd, q))⟩
       | none =>
         ⟨(searchAuxT A now fetch rest ((sort_by_time raw).take 10)).collected,
          (searchAuxT A now fetch rest ((sort_by_time raw).take 10)).fallback,
          dd :: (searchAuxT A now fetch rest
            ((sort_by_time raw).take 10)).fetchLog,
          (tryThresholdsT A now raw thresholdsList).2.map (fun q => (dd, q)) ++
            (searchAuxT A now fetch rest
              ((sort_by_time raw).take 10)).evalLog⟩) := rfl

theorem tryThresholdsT_fst (A : Astro) (now : ℚ) (raw : List RawEvent) :
    ∀ ths, (tryThresholdsT A now raw ths).1 = tryThresholds A now raw ths := by
  intro ths
  induction ths with
  | nil => rfl
  | cons th rest ih =>
    rw [tryThresholdsT_cons, tryThresholds_cons]
    split_ifs with h
    · rfl
    · exact ih

theorem tryThresholdsT_raw (A : Astro) (now : ℚ) (raw : List RawEvent) :
    ∀ ths, ∀ q ∈ (tryThresholdsT A now raw ths).2, q.2 = raw := by
  intro ths
  induction ths with
  | nil => intro q hq; cases hq
  | cons th rest ih =>
    intro q hq
    rw [tryThresholdsT_cons] at hq
    split_ifs at hq with h
    · rcases List.mem_singleton.mp hq with rfl; rfl
    · rcases List.mem_cons.mp hq with rfl | hq2
      · rfl
      · exact ih q hq2

theorem tryThresholdsT_ths (A : Astro) (now : ℚ) (raw : List RawEvent) :
    ∀ ths, ∃ t, ((tryThresholdsT A now raw ths).2.map Prod.fst) ++ t = ths := by
  intro ths
  induction ths with
  | nil => exact ⟨[], rfl⟩
  | cons th rest ih =>
    rw [tryThresholdsT_cons]
    split_ifs with h
    · exact ⟨rest, rfl⟩
    · rcases ih with ⟨t, ht⟩
      exact ⟨t, by simpa using ht⟩

theorem tryThresholdsT_spec (A : Astro) (now : ℚ) (raw : List RawEvent) :
    ∀ ths,
    (∀ q ∈ (tryThresholdsT A now raw ths).2.dropLast,
      (survivors A now raw q.1).length < 5) ∧
    ((tryThresholdsT A now raw ths).1 = none →
      ∀ q ∈ (tryThresholdsT A now raw ths).2,
        (survivors A now raw q.1).length < 5) ∧
    (∀ v, (tryThresholdsT A now raw ths).1 = some v →
      ∃ th, (tryThresholdsT A now raw ths).2.getLast? = some (th, raw) ∧
        5 ≤ (survivors A now raw th).length ∧ v = survivors A now raw th) := by
  intro ths
  induction ths with
  | nil =>
    exact ⟨fun q hq => (nomatch hq), fun _ q hq => (nomatch hq),
      fun v hv => (nomatch hv)⟩
  | cons th rest ih =>
    rcases ih with ⟨ih1, ih2, ih3⟩
    rw [tryThresholdsT_cons]
    split_ifs with h
    · refine ⟨fun q hq => (nomatch hq), fun hnone => (nomatch hnone), ?_⟩
      intro v hv
      exact ⟨th, rfl, h, (Option.some_injective _ hv).symm⟩
    · refine ⟨?_, ?_, ?_⟩
      · intro q hq
        cases hrest : (tryThresholdsT A now raw rest).2 with
        | nil => rw [hrest] at hq; cases hq
        | cons b bs =>
          rw [hrest] at hq
          rcases List.mem_cons.mp (by simpa using hq) with rfl | hq2
          · exact lt_of_not_ge h
          · exact ih1 q (by rw [hrest]; simpa using hq2)
      · intro hnone q hq
        rcases List.mem_cons.mp hq with rfl | hq2
        · exact lt_of_not_ge h
        · exact ih2 hnone q hq2
      · intro v hv
        rcases ih3 v hv with ⟨th2, hLast, hlen, hveq⟩
        have hne : (tryThresholdsT A now raw rest).2 ≠ [] := by
          intro hnil
          rw [hnil] at hLast
          cases hLast
        exact ⟨th2, by rw [getLast?_cons_ne _ hne]; exact hLast, hlen, hveq⟩

theorem searchAuxT_agree (A : Astro) (now : ℚ)
    (fetch : ℕ → Option (List RawEvent)) :
    ∀ (ws : List ℕ) (fb : List RawEvent),
    ((searchAuxT A now fetch ws fb).collected,
     (searchAuxT A now fetch ws fb).fallback) = searchAux A now fetch ws fb := by
  intro ws
  induction ws with
  | nil => intro fb; rfl
  | cons dd rest ih =>
    intro fb
    cases hf : fetch dd with
    | none =>
      rw [searchAuxT_cons, searchAux_cons, hf]
      exact ih fb
    | some raw =>
      rw [searchAuxT_cons, searchAux_cons, hf]
      dsimp only
      rw [← tryThresholdsT_fst]
      cases hp : (tryThresholdsT A now raw thresholdsList).1 with
      | some v => rfl
      | none => exact ih _

theorem searchAuxT_fetchLog (A : Astro) (now : ℚ)
    (fetch : ℕ → Option (List RawEvent)) :
    ∀ (ws : List ℕ) (fb : List RawEvent),
    ∃ t, (searchAuxT A now fetch ws fb).fetchLog ++ t = ws := by
  intro ws
  induction ws with
  | nil => intro fb; exact ⟨[], rfl⟩
  | cons dd rest ih =>
    intro fb
    cases hf : fetch dd with
    | none =>
      rw [searchAuxT_cons, hf]
      dsimp only
      rcases ih fb with ⟨t, ht⟩
      exact ⟨t, by rw [List.cons_append, ht]⟩
    | some raw =>
      rw [searchAuxT_cons, hf]
      dsimp only
      cases hp : (tryThresholdsT A now raw thresholdsList).1 with
      | some v => exact ⟨rest, rfl⟩
      | none =>
        dsimp only
        rcases ih ((sort_by_time raw).take 10) with ⟨t, ht⟩
        exact ⟨t, by rw [List.cons_append, ht]⟩

theorem searchAuxT_evalLog_fetch (A : Astro) (now : ℚ)
    (fetch : ℕ → Option (List RawEvent)) :
    ∀ (ws : List ℕ) (fb : List RawEvent),
    ∀ e ∈ (searchAuxT A now fetch ws fb).evalLog,
    fetch e.1 = some e.2.2 ∧ e.1 ∈ (searchAuxT A now fetch ws fb).fetchLog := by
  intro ws
  induction ws with
  | nil => intro fb e he; exact (nomatch he)
  | cons dd rest ih =>
    intro fb e he
    cases hf : fetch dd with
    | none =>
      rw [searchAuxT_cons, hf] at he ⊢
      dsimp only at he ⊢
      rcases ih fb e he with ⟨hfe, hmem⟩
      exact ⟨hfe, List.mem_cons_of_mem _ hmem⟩
    | some raw =>
      rw [searchAuxT_cons, hf] at he ⊢
      dsimp only at he ⊢
      cases hp : (tryThresholdsT A now raw thresholdsList).1 with
      | some v =>
        rw [hp] at he
        dsimp only at he ⊢
        rcases List.mem_map.mp he with ⟨q, hq, rfl⟩
        refine ⟨?_, List.mem_singleton.mpr rfl⟩
        rw [hf, tryThresholdsT_raw A now raw thresholdsList q hq]
      | none =>
        rw [hp] at he
        dsimp only at he ⊢
        rcases List.mem_append.mp he with he2 | he2
        · rcases List.mem_map.mp he2 with ⟨q, hq, rfl⟩
          refine ⟨?_, List.mem_cons_self _ _⟩
          rw [hf, tryThresholdsT_raw A now raw thresholdsList q hq]
        · rcases ih _ e he2 with ⟨hfe, hmem⟩
          exact ⟨hfe, List.mem_cons_of_mem _ hmem⟩

theorem searchAuxT_evalLog_windows (A : Astro) (now : ℚ)
    (fetch : ℕ → Option (List RawEvent)) (ws : List ℕ) (fb : List RawEvent) :
    ∀ e ∈ (searchAuxT A now fetch ws fb).evalLog, e.1 ∈ ws := by
  intro e he
  rcases searchAuxT_evalLog_fetch A now fetch ws fb e he with ⟨_, hmem⟩
  rcases searchAuxT_fetchLog A now fetch ws fb with ⟨t, ht⟩
  rw [← ht]
  exact List.mem_append_left t hmem

theorem filter_block_self (dd : ℕ) (l : List ((ℚ × ℚ) × List RawEvent)) :
    ((l.map (fun q => (dd, q))).filter (fun e => decide (e.1 = dd))).map
      (fun e => e.2.1) = l.map Prod.fst := by
  induction l with
  | nil => rfl
  | cons q qs ih => simp [ih]

theorem filter_block_ne {dd d0 : ℕ} (h : dd ≠ d0)
    (l : List ((ℚ × ℚ) × List RawEvent)) :
    (l.map (fun q => (dd, q))).filter (fun e => decide (e.1 = d0)) = [] := by
  induction l with
  | nil => rfl
  | cons q qs ih => simp [ih, h]

theorem searchAuxT_evalLog_perWindow (A : Astro) (now : ℚ)
    (fetch : ℕ → Option (List RawEvent)) :
    ∀ (ws : List ℕ) (fb : List RawEvent), ws.Nodup → ∀ d0 : ℕ,
    ∃ t, (((searchAuxT A now fetch ws fb).evalLog.filter
        (fun e => decide (e.1 = d0))).map (fun e => e.2.1)) ++ t =
      thresholdsList := by
  intro ws
  induction ws with
  | nil => intro fb _ d0; exact ⟨thresholdsList, rfl⟩
  | cons dd rest ih =>
    intro fb hnd d0
    rw [List.nodup_cons] at hnd
    cases hf : fetch dd with
    | none =>
      rw [searchAuxT_cons, hf]
      dsimp only
      exact ih fb hnd.2 d0
    | some raw =>
      rw [searchAuxT_cons, hf]
      dsimp only
      cases hp : (tryThresholdsT A now raw thresholdsList).1 with
      | some v =>
        dsimp only
        by_cases hd0 : dd = d0
        · subst hd0
          rw [filter_block_self]
          exact tryThresholdsT_ths A now raw thresholdsList
        · rw [filter_block_ne hd0]
          exact ⟨thresholdsList, rfl⟩
      | none =>
        dsimp only
        rw [List.filter_append, List.map_append]
        by_cases hd0 : dd = d0
        · subst hd0
          have hrec : (searchAuxT A now fetch rest
              ((sort_by_time raw).take 10)).evalLog.filter
              (fun e => decide (e.1 = dd)) = [] := by
            apply List.filter_eq_nil_iff.mpr
            intro e he
            simp only [decide_eq_true_eq]
            intro heq
            exact hnd.1 (heq ▸ searchAuxT_evalLog_windows A now fetch rest _ e he)
          rw [hrec, filter_block_self]
          simp only [List.map_nil, List.append_nil]
          exact tryThresholdsT_ths A now raw thresholdsList
        · rw [filter_block_ne hd0]
          simp only [List.map_nil, List.nil_append]
          exact ih _ hnd.2 d0

theorem searchAuxT_evalLog_sorted (A : Astro) (now : ℚ)
    (fetch : ℕ → Option (List RawEvent)) :
    ∀ (ws : List ℕ) (fb : List RawEvent), ws.Pairwise (· < ·) →
    ((searchAuxT A now fetch ws fb).evalLog.map
      (fun e => e.1)).Pairwise (· ≤ ·) := by
  intro ws
  induction ws with
  | nil => intro fb _; exact List.Pairwise.nil
  | cons dd rest ih =>
    intro fb hpw
    rw [List.pairwise_cons] at hpw
    cases hf : fetch dd with
    | none =>
      rw [searchAuxT_cons, hf]
      dsimp only
      exact ih fb hpw.2
    | some raw =>
      rw [searchAuxT_cons, hf]
      dsimp only
      cases hp : (tryThresholdsT A now raw thresholdsList).1 with
      | some v =>
        dsimp only
        rw [List.map_map]
        exact pairwise_const_le _ dd
      | none =>
        dsimp only
        rw [List.map_append, List.map_map]
        apply List.pairwise_append.mpr
        refine ⟨pairwise_const_le _ dd, ih _ hpw.2, ?_⟩
        intro a ha b hb
        rcases List.mem_map.mp ha with ⟨q, _, rfl⟩
        rcases List.mem_map.mp hb with ⟨e, he, rfl⟩
        exact le_of_lt (hpw.1 e.1
          (searchAuxT_evalLog_windows A now fetch rest _ e he))

theorem searchAuxT_firstHit (A : Astro) (now : ℚ)
    (fetch : ℕ → Option (List RawEvent)) :
    ∀ (ws : List ℕ) (fb : List RawEvent),
    (∀ e ∈ (searchAuxT A now fetch ws fb).evalLog.dropLast,
      (survivors A now e.2.2 e.2.1).length < 5) ∧
    ((searchAuxT A now fetch ws fb).collected = [] →
      ∀ e ∈ (searchAuxT A now fetch ws fb).evalLog,
        (survivors A now e.2.2 e.2.1).length < 5) ∧
    ((searchAuxT A now fetch ws fb).collected ≠ [] →
      ∃ w th raw,
        (searchAuxT A now fetch ws fb).evalLog.getLast? = some (w, th, raw) ∧
        (searchAuxT A now fetch ws fb).fetchLog.getLast? = some w ∧
        5 ≤ (survivors A now raw th).length ∧
        (searchAuxT A now fetch ws fb).collected = survivors A now raw th) := by
  intro ws
  induction ws with
  | nil =>
    intro fb
    exact ⟨fun e he => (nomatch he), fun _ e he => (nomatch he),
      fun hne => absurd rfl hne⟩
  | cons dd rest ih =>
    intro fb
    cases hf : fetch dd with
    | none =>
      rw [searchAuxT_cons, hf]
      dsimp only
      rcases ih fb with ⟨ih1, ih2, ih3⟩
      refine ⟨ih1, ih2, ?_⟩
      intro hv
      rcases ih3 hv with ⟨w, th2, raw2, hLastE, hLastF, hlen2, hcoll⟩
      have hneF : (searchAuxT A now fetch rest fb).fetchLog ≠ [] := by
        intro hnil
        rw [hnil] at hLastF
        cases hLastF
      refine ⟨w, th2, raw2, hLastE, ?_, hlen2, hcoll⟩
      rw [getLast?_cons_ne _ hneF]
      exact hLastF
    | some raw =>
      rw [searchAuxT_cons, hf]
      dsimp only
      rcases tryThresholdsT_spec A now raw thresholdsList with ⟨t1, t2, t3⟩
      cases hp : (tryThresholdsT A now raw thresholdsList).1 with
      | some v =>
        dsimp only
        rcases t3 v hp with ⟨th, hLast, hlen, hveq⟩
        refine ⟨?_, ?_, ?_⟩
        · intro e he
          rw [dropLast_map_eq] at he
          rcases List.mem_map.mp he with ⟨q, hq, rfl⟩
          have hq2 := List.dropLast_subset _ hq
          have := t1 q hq
          rwa [tryThresholdsT_raw A now raw thresholdsList q hq2]
        · intro hv
          rw [hv] at hveq
          rw [← hveq] at hlen
          exact absurd hlen (by simp)
        · intro _
          refine ⟨dd, th, raw, ?_, rfl, hlen, hveq⟩
          rw [List.getLast?_map, hLast]
          rfl
      | none =>
        dsimp only
        rcases ih ((sort_by_time raw).take 10) with ⟨ih1, ih2, ih3⟩
        have hblock : ∀ e ∈ (tryThresholdsT A now raw
            thresholdsList).2.map (fun q => (dd, q)),
            (survivors A now e.2.2 e.2.1).length < 5 := by
          intro e he
          rcases List.mem_map.mp he with ⟨q, hq, rfl⟩
          have := t2 hp q hq
          rwa [tryThresholdsT_raw A now raw thresholdsList q hq]
        refine ⟨?_, ?_, ?_⟩
        · intro e he
          cases hrec : (searchAuxT A now fetch rest
              ((sort_by_time raw).take 10)).evalLog with
          | nil =>
            rw [hrec, List.append_nil] at he
            exact hblock e (List.dropLast_subset _ he)
          | cons r rs =>
            rw [hrec, List.dropLast_append_of_ne_nil _ (by simp)] at he
            rcases List.mem_append.mp he with he2 | he2
            · exact hblock e he2
            · have := ih1 e (by rw [hrec]; exact he2)
              exact this
        · intro hv e he
          rcases List.mem_append.mp he with he2 | he2
          · exact hblock e he2
          · exact ih2 hv e he2
        · intro hv
          rcases ih3 hv with ⟨w, th2, raw2, hLastE, hLastF, hlen2, hcoll⟩
          have hneE : (searchAuxT A now fetch rest
              ((sort_by_time raw).take 10)).evalLog ≠ [] := by
            intro hnil
            rw [hnil] at hLastE
            cases hLastE
          have hneF : (searchAuxT A now fetch rest
              ((sort_by_time raw).take 10)).fetchLog ≠ [] := by
            intro hnil
            rw [hnil] at hLastF
            cases hLastF
          refine ⟨w, th2, raw2, ?_, ?_, hlen2, hcoll⟩
          · rw [List.getLast?_append_of_ne_nil _ hneE]
            exact hLastE
          · rw [getLast?_cons_ne _ hneF]
            exact hLastF

/-- C3: the search controller tries the windows in increasing size order
(90, 180, 270, 365 days); within each window the raw candidates are fetched
exactly once (the fetch log is a duplicate-free prefix of the window list)
and the same fetched raw set is reused for every threshold evaluation of
that window; thresholds are tried in a fixed order from strictest to
loosest (each window's evaluated tiers form a prefix of the threshold
ladder, and evaluations are lexicographically ordered); and the first
(window, threshold) pair whose deduplicated visible survivor count reaches
5 is selected: every earlier evaluation fails the quota, the selected pair
is the last one evaluated, and no further window is fetched after it.  The
instrumented search agrees with the pipeline's search. -/
theorem c3_controller_order (A : Astro) (now : ℚ)
    (fetch : ℕ → Option (List RawEvent)) :
    windowsList = [90, 180, 270, 365] ∧
    windowsList.Pairwise (· < ·) ∧
    thresholdsList = [(15, -12), (12, -8), (10, -6), (8, -3), (5, 0)] ∧
    thresholdsList.Pairwise (fun a b => b.1 < a.1 ∧ a.2 < b.2) ∧
    ((searchAuxT A now fetch windowsList []).collected,
      (searchAuxT A now fetch windowsList []).fallback) =
      searchAux A now fetch windowsList [] ∧
    (∃ t, (searchAuxT A now fetch windowsList []).fetchLog ++ t =
      windowsList) ∧
    (∀ e ∈ (searchAuxT A now fetch windowsList []).evalLog,
      fetch e.1 = some e.2.2 ∧
      e.1 ∈ (searchAuxT A now fetch windowsList []).fetchLog) ∧
    (∀ d0 : ℕ, ∃ t,
      (((searchAuxT A now fetch windowsList []).evalLog.filter
        (fun e => decide (e.1 = d0))).map (fun e => e.2.1)) ++ t =
      thresholdsList) ∧
    ((searchAuxT A now fetch windowsList []).evalLog.map
      (fun e => e.1)).Pairwise (· ≤ ·) ∧
    (∀ e ∈ (searchAuxT A now fetch windowsList []).evalLog.dropLast,
      (survivors A now e.2.2 e.2.1).length < 5) ∧
    ((searchAuxT A now fetch windowsList []).collected = [] →
      ∀ e ∈ (searchAuxT A now fetch windowsList []).evalLog,
        (survivors A now e.2.2 e.2.1).length < 5) ∧
    ((searchAuxT A now fetch windowsList []).collected ≠ [] →
      ∃ w th raw,
        (searchAuxT A now fetch windowsList []).evalLog.getLast? =
          some (w, th, raw) ∧
        (searchAuxT A now fetch windowsList []).fetchLog.getLast? = some w ∧
        5 ≤ (survivors A now raw th).length ∧
        (searchAuxT A now fetch windowsList []).collected =
          survivors A now raw th) := by
  rcases searchAuxT_firstHit A now fetch windowsList [] with ⟨h10, h11, h12⟩
  exact ⟨rfl, by decide, rfl, by decide,
    searchAuxT_agree A now fetch windowsList [],
    searchAuxT_fetchLog A now fetch windowsList [],
    searchAuxT_evalLog_fetch A now fetch windowsList [],
    searchAuxT_evalLog_perWindow A now fetch windowsList [] (by decide),
    searchAuxT_evalLog_sorted A now fetch windowsList [] (by decide),
    h10, h11, h12⟩

/-- C3 witness: on a concrete run that satisfies the quota at the first
window and first tier, the search selects the last evaluated pair. -/
theorem c3_controller_order_witness :
    (searchAuxT astroGood 0 fetchGood windowsList []).collected ≠ [] ∧
    (∃ w th raw,
      (searchAuxT astroGood 0 fetchGood windowsList []).evalLog.getLast? =
        some (w, th, raw) ∧
      (searchAuxT astroGood 0 fetchGood windowsList []).fetchLog.getLast? =
        some w ∧
      5 ≤ (survivors astroGood 0 raw th).length ∧
      (searchAuxT astroGood 0 fetchGood windowsList []).collected =
        survivors astroGood 0 raw th) := by
  obtain ⟨-, -, -, -, -, -, -, -, -, -, -, hHit⟩ :=
    c3_controller_order astroGood 0 fetchGood
  exact ⟨by decide, hHit (by decide)⟩
